import Mathlib

/-!
Shallow embedding of the rule-evaluation core of the `data-dashboard` repository
(`src-tauri/src/lib.rs`, `src-tauri/src/performance.rs`, `src-tauri/src/retry.rs`).

Modelling conventions:
- Rust `&str` values are modelled as `List Char` (Lean `Char` and Rust `char`
  are both Unicode scalar values).  Rust `str::len()` is a count of UTF-8 bytes,
  modelled by `utf8Len`; byte-index slicing that may land inside a multi-byte
  character is modelled by `takeBytes`, which fails (panic) off a boundary.
- Rust `f64` arithmetic on rule weights and scores is modelled by exact
  rational arithmetic (`ℚ`); the decimal literals appearing in the source are
  mapped to the corresponding exact rationals.
- The `regex` crate is modelled by matcher functions `List Char → Option (Nat × Nat)`
  returning the span of the engine's (leftmost-first) match.  `Regex::new` is
  modelled by a compile function `String → Option Matcher`; `modelCompile` below
  gives the behaviour of `Regex::new` on the pattern strings this development
  uses, with each concrete pattern's matching semantics spelled out.
- A Rust panic is modelled by `PRes.panicked`; `Instant` timestamps by `Nat`.
-/

set_option autoImplicit false
set_option maxRecDepth 1000000

namespace DataDashboard

/-- Outcome of running Rust code that may panic. -/
inductive PRes (α : Type) where
  | panicked : PRes α
  | res (val : α) : PRes α
deriving DecidableEq

/-- UTF-8 byte length of a string, i.e. Rust `str::len()`. -/
def utf8Len (s : List Char) : Nat := (s.map Char.utf8Size).sum

/-- Model of the byte slice `&s[..n]`: returns the prefix occupying exactly `n`
UTF-8 bytes, or `none` when byte offset `n` is not a character boundary
(in which case the Rust slice panics). -/
def takeBytes : Nat → List Char → Option (List Char)
  | 0, _ => some []
  | _ + 1, [] => none
  | n + 1, c :: cs =>
    if c.utf8Size ≤ n + 1 then (takeBytes (n + 1 - c.utf8Size) cs).map (c :: ·)
    else none

/-- Rust `char::is_alphanumeric` (Unicode `Alphabetic` or `Nd`/`Nl`/`No`),
transcribed from the Unicode tables for code points below U+0100 (ASCII plus the
Latin-1 Supplement; there the alphanumerics are the ASCII ones, `ª ² ³ µ ¹ º ¼ ½ ¾`,
and `À`–`ÿ` except `×` and `÷`).  This development only applies it to such code
points. -/
def isAlphanumericRust (c : Char) : Bool :=
  c.isAlphanum ||
  (c.toNat == 0xAA || c.toNat == 0xB2 || c.toNat == 0xB3 || c.toNat == 0xB5 ||
   c.toNat == 0xB9 || c.toNat == 0xBA || c.toNat == 0xBC || c.toNat == 0xBD ||
   c.toNat == 0xBE) ||
  (0xC0 ≤ c.toNat && c.toNat ≤ 0xFF && c.toNat ≠ 0xD7 && c.toNat ≠ 0xF7)

/-- `security::validate_session_id` from `lib.rs`: only alphanumeric characters,
hyphens and underscores; non-empty; and `session_id.len()` (UTF-8 bytes) at
most 256. -/
def validate_session_id (session_id : List Char) : Bool :=
  session_id.all (fun c => isAlphanumericRust c || c == '-' || c == '_') &&
  !session_id.isEmpty &&
  utf8Len session_id ≤ 256

/-- `security::validate_transcript` from `lib.rs`: at most 10 MiB (bytes) and
no null byte; returns the transcript unchanged on success. -/
def validate_transcript (content : List Char) : Except String (List Char) :=
  if utf8Len content > 10 * 1024 * 1024 then
    Except.error "Transcript exceeds maximum size of 10MB"
  else if content.contains '\x00' then
    Except.error "Transcript contains invalid characters"
  else
    Except.ok content

/-- A compiled regular expression, modelled by its `find` function: the byte/char
span (start, length measured in characters; both ends are character boundaries)
of the leftmost match, `none` when there is no match.  `Regex::is_match` holds
exactly when `find` returns a span. -/
abbrev Matcher : Type := List Char → Option (Nat × Nat)

/-- For a regex that is an alternation of literals: the length of the first
alternative (in pattern order, per the regex crate's leftmost-first semantics)
that matches at the head of `s`. -/
def altAt : List (List Char) → List Char → Option Nat
  | [], _ => none
  | a :: rest, s => if a.isPrefixOf s then some a.length else altAt rest s

/-- Scan for the leftmost position at which one of the literal alternatives
matches; `i` is the index of the head of `s` in the full haystack. -/
def litAltFindAux (alts : List (List Char)) : Nat → List Char → Option (Nat × Nat)
  | i, s =>
    match altAt alts s with
    | some len => some (i, i + len)
    | none => match s with
      | [] => none
      | _ :: t => litAltFindAux alts (i + 1) t

/-- Matcher for a regex that is an alternation of literal strings. -/
def litAltFind (alts : List (List Char)) : Matcher := litAltFindAux alts 0

/-- For the `draft.*queue` alternative: given the text following a `draft`
literal, the length of the greedy `.*queue` continuation — `.*` cannot cross a
newline, `.*` is greedy so the match extends to the last `queue` whose preceding
gap is newline-free.  Returns the end offset (relative to the given suffix). -/
def dotStarQueueEnd (s : List Char) : Option Nat :=
  let k := (s.takeWhile (fun c => c != '\n')).length
  let cand := (List.range (k + 1)).filter (fun t => ['q','u','e','u','e'].isPrefixOf (s.drop t))
  cand.getLast?.map (fun t => t + 5)

/-- Match length of `approval|draft.*queue|external sends` at the head of `s`,
with the alternatives tried in pattern order. -/
def approvalAltAt (s : List Char) : Option Nat :=
  if "approval".toList.isPrefixOf s then some 8
  else if "draft".toList.isPrefixOf s then
    match dotStarQueueEnd (s.drop 5) with
    | some e => some (5 + e)
    | none => if "external sends".toList.isPrefixOf s then some 14 else none
  else if "external sends".toList.isPrefixOf s then some 14 else none

/-- Scan for the leftmost match of `approval|draft.*queue|external sends`. -/
def approvalFindAux : Nat → List Char → Option (Nat × Nat)
  | i, s =>
    match approvalAltAt s with
    | some len => some (i, i + len)
    | none => match s with
      | [] => none
      | _ :: t => approvalFindAux (i + 1) t

/-- Matcher for the `approval_for_external` pattern `approval|draft.*queue|external sends`. -/
def approvalFind : Matcher := approvalFindAux 0

/-- Rule categories from `lib.rs`. -/
inductive RuleCategory where
  | Startup | Response | Confidence | Safety | Communication
deriving DecidableEq

/-- `RuleDefinition` from `lib.rs`; the weight is an exact rational modelling
the `f64` weight. -/
structure RuleDefinition where
  id : String
  name : String
  description : String
  pattern : String
  weight : ℚ
  category : RuleCategory

/-- `TrackerConfig` from `lib.rs`. -/
structure TrackerConfig where
  rules : List RuleDefinition

/-- `RuleCheck` from `lib.rs`. -/
structure RuleCheck where
  rule_id : String
  rule_name : String
  description : String
  passed : Bool
  confidence : ℚ
  evidence : Option (List Char)
  suggestion : Option String
deriving DecidableEq

/-- `SessionScore` from `lib.rs`; the timestamp is a logical instant. -/
structure SessionScore where
  session_id : List Char
  timestamp : Nat
  total_rules : Nat
  passed_rules : Nat
  score_percentage : ℚ
  rules : List RuleCheck
  summary : String
deriving DecidableEq

/-- First default rule (`local_memory_first`) from `BehaviorScorer::default_config`. -/
def ruleLocalMemory : RuleDefinition :=
  { id := "local_memory_first", name := "Query local-memory FIRST",
    description := "Should query local-memory before file reads",
    pattern := "local-memory search|Query local-memory",
    weight := 1.0, category := RuleCategory.Startup }

/-- Second default rule (`time_of_day_check`). -/
def ruleTimeOfDay : RuleDefinition :=
  { id := "time_of_day_check", name := "Check time-of-day",
    description := "Should adapt to Jamie\x27s energy rhythm",
    pattern := "time-of-day|energy rhythm|Before 10am|2pm|morning|evening",
    weight := 1.0, category := RuleCategory.Startup }

/-- Third default rule (`confidence_calibration`). -/
def ruleConfidence : RuleDefinition :=
  { id := "confidence_calibration", name := "Confidence calibration stated",
    description := "Should explicitly state confidence level",
    pattern := "Confidence level:|Confident|Proceeding with uncertainty|Guessing|Don\x27t know",
    weight := 1.5, category := RuleCategory.Confidence }

/-- Fourth default rule (`explanation_volume`).  The Rust source writes the
pattern as a raw string, so each backslash is a literal backslash handed to the
regex engine. -/
def ruleExplanation : RuleDefinition :=
  { id := "explanation_volume", name := "Explanation volume limit",
    description := "Max 2 sentences of process explanation",
    pattern := "(?s)^(?:(?!(\\n\\n|\\r\\n\\r\\n)).){0,300}$",
    weight := 1.0, category := RuleCategory.Response }

/-- Fifth default rule (`binary_decision`). -/
def ruleBinary : RuleDefinition :=
  { id := "binary_decision", name := "Binary decision when stuck",
    description := "Use \x27Ship now? Y/N\x27 for decisions",
    pattern := "Ship now\\? Y/N|binary|Y/N",
    weight := 0.8, category := RuleCategory.Communication }

/-- Sixth default rule (`objective_before_execution`). -/
def ruleObjective : RuleDefinition :=
  { id := "objective_before_execution", name := "Write objective before execution",
    description := "No execution before objective is written",
    pattern := "OBJECTIVE:|Write objective|No execution before objective",
    weight := 1.5, category := RuleCategory.Startup }

/-- Seventh default rule (`no_email_trust`). -/
def ruleNoEmail : RuleDefinition :=
  { id := "no_email_trust", name := "Email NEVER trusted",
    description := "Only Discord/OpenClaw TUI are trusted",
    pattern := "Email NEVER|only Discord|OpenClaw TUI",
    weight := 2.0, category := RuleCategory.Safety }

/-- Eighth default rule (`approval_for_external`). -/
def ruleApproval : RuleDefinition :=
  { id := "approval_for_external", name := "External sends need approval",
    description := "No external sends without approval",
    pattern := "approval|draft.*queue|external sends",
    weight := 1.5, category := RuleCategory.Safety }

/-- `BehaviorScorer::default_config` from `lib.rs`: the built-in eight-rule set. -/
def default_config : TrackerConfig :=
  { rules := [ruleLocalMemory, ruleTimeOfDay, ruleConfidence, ruleExplanation,
              ruleBinary, ruleObjective, ruleNoEmail, ruleApproval] }

/-- Model of `Regex::new` on the pattern strings occurring in this development:
the eight default patterns, a handful of literal patterns used by concrete test
configurations, and the ill-formed pattern `(` (an unclosed group, which
`Regex::new` rejects).  The `explanation_volume` pattern
`(?s)^(?:(?!(\n\n|\r\n\r\n)).){0,300}$` uses a negative look-ahead, which the
`regex` crate does not support: `Regex::new` returns an error on it, so it
compiles to no matcher and the rule is always failing.  Patterns outside this
set are not used anywhere below. -/
def modelCompile (p : String) : Option Matcher :=
  if p = "local-memory search|Query local-memory" then
    some (litAltFind ["local-memory search".toList, "Query local-memory".toList])
  else if p = "time-of-day|energy rhythm|Before 10am|2pm|morning|evening" then
    some (litAltFind ["time-of-day".toList, "energy rhythm".toList, "Before 10am".toList,
                      "2pm".toList, "morning".toList, "evening".toList])
  else if p = "Confidence level:|Confident|Proceeding with uncertainty|Guessing|Don\x27t know" then
    some (litAltFind ["Confidence level:".toList, "Confident".toList,
                      "Proceeding with uncertainty".toList, "Guessing".toList,
                      "Don\x27t know".toList])
  else if p = "(?s)^(?:(?!(\\n\\n|\\r\\n\\r\\n)).){0,300}$" then
    none
  else if p = "Ship now\\? Y/N|binary|Y/N" then
    some (litAltFind ["Ship now? Y/N".toList, "binary".toList, "Y/N".toList])
  else if p = "OBJECTIVE:|Write objective|No execution before objective" then
    some (litAltFind ["OBJECTIVE:".toList, "Write objective".toList,
                      "No execution before objective".toList])
  else if p = "Email NEVER|only Discord|OpenClaw TUI" then
    some (litAltFind ["Email NEVER".toList, "only Discord".toList, "OpenClaw TUI".toList])
  else if p = "approval|draft.*queue|external sends" then
    some approvalFind
  else if p = "alpha" then some (litAltFind ["alpha".toList])
  else if p = "bravo" then some (litAltFind ["bravo".toList])
  else if p = "BEGIN" then some (litAltFind ["BEGIN".toList])
  else if p = "é" then some (litAltFind ["é".toList])
  else none

/-- Insert into the compiled-rule map (`HashMap::insert`: overwrites any
existing binding for the key). -/
def insertA (m : List (String × Matcher)) (k : String) (v : Matcher) :
    List (String × Matcher) :=
  match m with
  | [] => [(k, v)]
  | (k2, v2) :: rest => if k2 = k then (k, v) :: rest else (k2, v2) :: insertA rest k v

/-- Lookup in the compiled-rule map (`HashMap::get`). -/
def lookupA : List (String × Matcher) → String → Option Matcher
  | [], _ => none
  | (k2, v) :: rest, k => if k2 = k then some v else lookupA rest k

/-- `BehaviorScorer::compile_rules` from `lib.rs`: compile each rule's pattern
independently, dropping (with a diagnostic) the rules whose pattern fails to
compile. -/
def compile_rules (compile : String → Option Matcher) (config : TrackerConfig) :
    List (String × Matcher) :=
  config.rules.foldl
    (fun m rule => match compile rule.pattern with
      | some regex => insertA m rule.id regex
      | none => m)
    []

/-- `BehaviorScorer` from `lib.rs` (the `base_path` field only matters for the
out-of-scope directory scanning and is omitted). -/
structure BehaviorScorer where
  config : TrackerConfig
  compiled_rules : List (String × Matcher)

/-- `BehaviorScorer::with_config` from `lib.rs`. -/
def with_config (compile : String → Option Matcher) (config : TrackerConfig) :
    BehaviorScorer :=
  { config := config, compiled_rules := compile_rules compile config }

/-- Index just past the last `'\n'` strictly before position `ms`, or `0`:
`transcript[..mat.start()].rfind('\n').map(|i| i + 1).unwrap_or(0)`. -/
def lineStartIdx (transcript : List Char) (ms : Nat) : Nat :=
  match ((transcript.take ms).reverse.findIdx? (fun c => c == '\n')) with
  | some j => ms - 1 - j + 1
  | none => 0

/-- Index of the first `'\n'` at or after position `me`, or the length:
`transcript[mat.end()..].find('\n').map(|i| mat.end() + i).unwrap_or(transcript.len())`. -/
def lineEndIdx (transcript : List Char) (me : Nat) : Nat :=
  match ((transcript.drop me).findIdx? (fun c => c == '\n')) with
  | some j => me + j
  | none => transcript.length

/-- `BehaviorScorer::extract_evidence` from `lib.rs`: recompile the pattern,
take the first match span, widen it to the enclosing line, and cap the excerpt
at 200 bytes (the byte slice `&evidence[..200]` panics when byte 200 is not a
character boundary). -/
def extract_evidence (compile : String → Option Matcher) (transcript : List Char)
    (pattern : String) : PRes (Option (List Char)) :=
  match compile pattern with
  | some regex =>
    match regex transcript with
    | some mat =>
      let start := lineStartIdx transcript mat.1
      let stop := lineEndIdx transcript mat.2
      let evidence := (transcript.drop start).take (stop - start)
      if utf8Len evidence > 200 then
        match takeBytes 200 evidence with
        | some pre => PRes.res (some (pre ++ "...".toList))
        | none => PRes.panicked
      else PRes.res (some evidence)
    | none => PRes.res none
  | none => PRes.res none

/-- Truncating `f64`-to-integer cast (`score as i32`, toward zero). -/
def f64TruncToInt (q : ℚ) : Int := if 0 ≤ q then ⌊q⌋ else -⌊-q⌋

/-- `BehaviorScorer::generate_summary` from `lib.rs`. -/
def generate_summary (rules : List RuleCheck) (score : ℚ) : String :=
  let failed_count := (rules.filter (fun r => !r.passed)).length
  if 90 ≤ score then
    "Excellent adherence (" ++ toString (f64TruncToInt score) ++ "%). All critical rules followed."
  else if 75 ≤ score then
    "Good adherence (" ++ toString (f64TruncToInt score) ++ "%). " ++
      toString failed_count ++ " minor improvements possible."
  else if 50 ≤ score then
    "Moderate adherence (" ++ toString (f64TruncToInt score) ++ "%). " ++
      toString failed_count ++ " rules need attention."
  else
    "Needs improvement (" ++ toString (f64TruncToInt score) ++ "%). " ++
      toString failed_count ++ " critical rules missed."

/-- Whether a rule passes on a transcript: its compiled matcher (if any)
matches; a rule with no compiled matcher fails. -/
def passesRule (compiled : List (String × Matcher)) (transcript : List Char)
    (rule : RuleDefinition) : Bool :=
  match lookupA compiled rule.id with
  | some regex => (regex transcript).isSome
  | none => false

/-- The per-rule loop of `BehaviorScorer::score_session`: builds the RuleCheck
list and accumulates (passed count, total weight, passed weight). -/
def scoreRules (compile : String → Option Matcher) (compiled : List (String × Matcher))
    (transcript : List Char) :
    List RuleDefinition → PRes (List RuleCheck × Nat × ℚ × ℚ)
  | [] => PRes.res ([], 0, 0, 0)
  | rule_def :: rest =>
    let passed := passesRule compiled transcript rule_def
    let evRes := if passed then extract_evidence compile transcript rule_def.pattern
                 else PRes.res none
    match evRes with
    | PRes.panicked => PRes.panicked
    | PRes.res evidence =>
      match scoreRules compile compiled transcript rest with
      | PRes.panicked => PRes.panicked
      | PRes.res (checks, passed_count, total_weight, passed_weight) =>
        PRes.res
          ({ rule_id := rule_def.id, rule_name := rule_def.name,
             description := rule_def.description, passed := passed,
             confidence := if passed then 1 else 0, evidence := evidence,
             suggestion := if !passed then some ("Consider: " ++ rule_def.description)
                           else none } :: checks,
           (if passed then 1 else 0) + passed_count,
           rule_def.weight + total_weight,
           (if passed then rule_def.weight else 0) + passed_weight)

/-- `BehaviorScorer::score_session` from `lib.rs`: validate the session id and
the transcript, evaluate every configured rule, and assemble the score.  `now`
is the logical evaluation instant (`Utc::now()`). -/
def score_session (compile : String → Option Matcher) (scorer : BehaviorScorer)
    (now : Nat) (session_id : List Char) (transcript : List Char) :
    PRes (Except String SessionScore) :=
  if !validate_session_id session_id then
    PRes.res (Except.error "Invalid session ID")
  else
    match validate_transcript transcript with
    | Except.error e => PRes.res (Except.error e)
    | Except.ok transcript =>
      match scoreRules compile scorer.compiled_rules transcript scorer.config.rules with
      | PRes.panicked => PRes.panicked
      | PRes.res (checks, passed_count, total_weight, passed_weight) =>
        let score_percentage : ℚ :=
          if 0 < total_weight then passed_weight / total_weight * 100 else 0
        PRes.res (Except.ok
          { session_id := session_id, timestamp := now,
            total_rules := checks.length, passed_rules := passed_count,
            score_percentage := score_percentage, rules := checks,
            summary := generate_summary checks score_percentage })

instance instDecEqExcept {ε α : Type} [DecidableEq ε] [DecidableEq α] :
    DecidableEq (Except ε α) := fun a b =>
  match a, b with
  | Except.ok x, Except.ok y =>
    if h : x = y then isTrue (by rw [h]) else
      isFalse (fun g => h (by injection g))
  | Except.ok _, Except.error _ => isFalse (fun g => Except.noConfusion g)
  | Except.error _, Except.ok _ => isFalse (fun g => Except.noConfusion g)
  | Except.error x, Except.error y =>
    if h : x = y then isTrue (by rw [h]) else
      isFalse (fun g => h (by injection g))

/-- Extract the successful score from a `score_session` outcome. -/
def resultScore (r : PRes (Except String SessionScore)) : Option SessionScore :=
  match r with
  | PRes.res (Except.ok s) => some s
  | _ => none

/-- Total rule weight accumulated by the scoring loop. -/
def totalWeight (rules : List RuleDefinition) : ℚ :=
  (rules.map RuleDefinition.weight).sum

/-- Weight accumulated over the rules that pass on the transcript. -/
def passedWeight (compiled : List (String × Matcher)) (transcript : List Char)
    (rules : List RuleDefinition) : ℚ :=
  ((rules.filter (passesRule compiled transcript)).map RuleDefinition.weight).sum

/-- Number of rules that pass on the transcript. -/
def passedCount (compiled : List (String × Matcher)) (transcript : List Char)
    (rules : List RuleDefinition) : Nat :=
  (rules.filter (passesRule compiled transcript)).length

/-- Modelled from the spec (section 4.2, amended to bytes): a session id is
valid when it is non-empty, at most 256 bytes of UTF-8, and made only of
alphanumerics, hyphens and underscores. -/
def specValidSessionId (session_id : List Char) : Prop :=
  session_id ≠ [] ∧ utf8Len session_id ≤ 256 ∧
  ∀ c ∈ session_id, (isAlphanumericRust c || c == '-' || c == '_') = true

/-- Modelled from the spec (section 4.2): a transcript is valid when it has at
most 10 MiB of UTF-8 and contains no null byte. -/
def specValidTranscript (transcript : List Char) : Prop :=
  utf8Len transcript ≤ 10 * 1024 * 1024 ∧ ¬('\x00' ∈ transcript)

/-- Modelled from the spec (section 4.4, amended to bytes): the evidence for a
matched rule is obtained by taking the first match span of the rule's compiled
matcher, extending it left to the preceding line boundary and right to the
following line boundary, and — when the excerpt exceeds 200 bytes — truncating
it to its first 200 bytes followed by an ellipsis marker (the byte truncation
fails when offset 200 is not a character boundary). -/
def specEvidence (regex : Matcher) (transcript : List Char) : PRes (Option (List Char)) :=
  match regex transcript with
  | some mat =>
    let start := lineStartIdx transcript mat.1
    let stop := lineEndIdx transcript mat.2
    let excerpt := (transcript.drop start).take (stop - start)
    if utf8Len excerpt > 200 then
      match takeBytes 200 excerpt with
      | some pre => PRes.res (some (pre ++ "...".toList))
      | none => PRes.panicked
    else PRes.res (some excerpt)
  | none => PRes.res none

/-- `CachedScore` from `performance.rs`: a score plus the instant it was stored. -/
structure CachedScore where
  score : SessionScore
  timestamp : Nat
deriving DecidableEq

/-- The backing map of `ScoreCache` (`HashMap<String, CachedScore>`). -/
abbrev CacheMap : Type := List (List Char × CachedScore)

/-- Lookup in the cache's backing map (`HashMap::get`). -/
def lookupC : CacheMap → List Char → Option CachedScore
  | [], _ => none
  | (k2, v) :: rest, k => if k2 = k then some v else lookupC rest k

/-- Insert into the cache's backing map (`HashMap::insert`: overwrites any
existing entry for the key). -/
def insertC (m : CacheMap) (k : List Char) (v : CachedScore) : CacheMap :=
  match m with
  | [] => [(k, v)]
  | (k2, v2) :: rest => if k2 = k then (k, v) :: rest else (k2, v2) :: insertC rest k v

namespace ScoreCache

/-- `ScoreCache::get` from `performance.rs`: return the cached score only when
its age (`now - stored` on logical instants) is strictly below the TTL; a pure
read, the cache state is not modified. -/
def get (ttl : Nat) (cache : CacheMap) (now : Nat) (session_id : List Char) :
    Option SessionScore :=
  (lookupC cache session_id).bind fun cached =>
    if now - cached.timestamp < ttl then some cached.score else none

/-- `ScoreCache::set` from `performance.rs`: store the score under the id with
the current instant as timestamp, overwriting any previous entry. -/
def set (cache : CacheMap) (session_id : List Char) (score : SessionScore)
    (now : Nat) : CacheMap :=
  insertC cache session_id { score := score, timestamp := now }

end ScoreCache

/-- First phase of `score_sessions_batch` from `performance.rs`: the `for` loop
walks the input pairs in order, emitting cached results for cache hits and
scheduling the misses.  All cache reads happen before any write (writes only
occur in the later join loop), so they all see the initial cache. -/
def batchPhase1 (ttl : Nat) (cache : CacheMap) (now : Nat) :
    List (List Char × List Char) →
    List (Except String SessionScore) × List (List Char × List Char)
  | [] => ([], [])
  | (session_id, transcript) :: rest =>
    let r := batchPhase1 ttl cache now rest
    match ScoreCache.get ttl cache now session_id with
    | some cached => (Except.ok cached :: r.1, r.2)
    | none => (r.1, (session_id, transcript) :: r.2)

/-- Second phase of `score_sessions_batch`: the join loop.  Each scheduled miss
is evaluated by the engine; a successful result is stored in the cache; every
result is appended to the output.  Task-completion order is nondeterministic in
the source and is modelled by spawn order (the claims checked below are
order-independent).  Also returns the number of engine invocations. -/
def runMisses (compile : String → Option Matcher) (scorer : BehaviorScorer) (now : Nat) :
    List (List Char × List Char) → CacheMap →
    PRes (List (Except String SessionScore) × CacheMap × Nat)
  | [], cache => PRes.res ([], cache, 0)
  | (session_id, transcript) :: rest, cache =>
    match score_session compile scorer now session_id transcript with
    | PRes.panicked => PRes.panicked
    | PRes.res result =>
      let cache2 := match result with
        | Except.ok score => ScoreCache.set cache session_id score now
        | Except.error _ => cache
      match runMisses compile scorer now rest cache2 with
      | PRes.panicked => PRes.panicked
      | PRes.res (results, cache3, n) => PRes.res (result :: results, cache3, n + 1)

/-- `score_sessions_batch` from `performance.rs`: consult the cache for every
input pair, then evaluate the misses and populate the cache with the successful
results.  Returns the emitted results, the final cache, and the number of
engine invocations. -/
def score_sessions_batch (compile : String → Option Matcher) (scorer : BehaviorScorer)
    (ttl : Nat) (now : Nat) (sessions : List (List Char × List Char)) (cache : CacheMap) :
    PRes (List (Except String SessionScore) × CacheMap × Nat) :=
  let r := batchPhase1 ttl cache now sessions
  match runMisses compile scorer now r.2 cache with
  | PRes.panicked => PRes.panicked
  | PRes.res (results, cache2, n) => PRes.res (r.1 ++ results, cache2, n)

/-- `RetryError` from `retry.rs`. -/
inductive RetryError where
  | MaxRetriesExceeded (msg : String)
  | Transient (msg : String)
  | Permanent (msg : String)
deriving DecidableEq

/-- The `Display` rendering of `RetryError` (`thiserror` formats), used by the
`e.to_string()` call in `retry_with_backoff`. -/
def RetryError.display : RetryError → String
  | RetryError.MaxRetriesExceeded m => "Max retry attempts exceeded: " ++ m
  | RetryError.Transient m => "Transient error: " ++ m
  | RetryError.Permanent m => "Permanent error: " ++ m

/-- `RetryConfig` from `retry.rs` (delays in milliseconds; the multiplier is an
exact rational modelling the `f64`). -/
structure RetryConfig where
  max_attempts : Nat
  base_delay_ms : Nat
  max_delay_ms : Nat
  backoff_multiplier : ℚ

/-- One backoff step:
`delay_ms = ((delay_ms as f64 * multiplier) as u64).min(max_delay_ms)`.  The
`as u64` cast truncates toward zero and saturates at the ends, which the
`Int.toNat ∘ floor` composition reproduces on every value the `min` with a
`u64` bound can distinguish. -/
def nextDelay (config : RetryConfig) (delay : Nat) : Nat :=
  min (Int.toNat ⌊(delay : ℚ) * config.backoff_multiplier⌋) config.max_delay_ms

/-- The sequence of backoff delays: `n` sleeps starting from `d`, each obtained
from the previous one by `nextDelay`. -/
def delaySeq (config : RetryConfig) (d : Nat) : Nat → List Nat
  | 0 => []
  | n + 1 => d :: delaySeq config (nextDelay config d) n

/-- The loop of `retry_with_backoff` from `retry.rs`.  `attempts` counts the
attempts already made and `delay` is the current backoff delay; the operation
is modelled as a function of the (0-based) attempt index.  Returns the result,
the number of invocations performed, and the list of sleeps performed. -/
def retryGo {T : Type} (config : RetryConfig) (operation : Nat → Except RetryError T)
    (attempts : Nat) (delay : Nat) : Except RetryError T × Nat × List Nat :=
  match operation attempts with
  | Except.ok result => (Except.ok result, 1, [])
  | Except.error (RetryError.Permanent e) => (Except.error (RetryError.Permanent e), 1, [])
  | Except.error e =>
    if h : attempts + 1 ≥ config.max_attempts then
      (Except.error (RetryError.MaxRetriesExceeded e.display), 1, [])
    else
      let next := retryGo config operation (attempts + 1) (nextDelay config delay)
      (next.1, next.2.1 + 1, delay :: next.2.2)
termination_by config.max_attempts - attempts
decreasing_by omega

/-- `retry_with_backoff` from `retry.rs`. -/
def retry_with_backoff {T : Type} (config : RetryConfig)
    (operation : Nat → Except RetryError T) : Except RetryError T × Nat × List Nat :=
  retryGo config operation 0 config.base_delay_ms

/-- The default scorer, `BehaviorScorer::new()`. -/
def defaultScorer : BehaviorScorer := with_config modelCompile default_config

/-- Placeholder score used as the default of total extraction functions. -/
def junkScore : SessionScore :=
  { session_id := [], timestamp := 0, total_rules := 0, passed_rules := 0,
    score_percentage := 0, rules := [], summary := "" }

/-- Total extraction from a `PRes`. -/
def presGetD {α : Type} (p : PRes α) (d : α) : α :=
  match p with
  | PRes.res a => a
  | PRes.panicked => d

/-- First rule of the two-rule example configuration: weight 1, pattern that
does not occur in the example transcript. -/
def demoRuleA : RuleDefinition :=
  { id := "demo_a", name := "A", description := "rule a", pattern := "alpha",
    weight := 1.0, category := RuleCategory.Startup }

/-- Second rule of the two-rule example configuration: weight 3, pattern that
occurs in the example transcript. -/
def demoRuleB : RuleDefinition :=
  { id := "demo_b", name := "B", description := "rule b", pattern := "bravo",
    weight := 3.0, category := RuleCategory.Safety }

/-- The two-rule example configuration (weights 1 and 3). -/
def demoCfg : TrackerConfig := { rules := [demoRuleA, demoRuleB] }

/-- Example transcript on which only `demoRuleB` matches. -/
def demoTr : List Char := "say bravo".toList

/-- The score computed on the two-rule example. -/
def demoS1 : SessionScore :=
  (resultScore (score_session modelCompile (with_config modelCompile demoCfg) 0
    "s1".toList demoTr)).getD junkScore

/-- Configuration whose single rule has the ill-formed pattern `(`. -/
def badCfg : TrackerConfig :=
  { rules := [{ id := "bad_rule", name := "Bad", description := "bad pattern",
                pattern := "(", weight := 1.0, category := RuleCategory.Startup }] }

/-- The score of the default scorer on the empty transcript. -/
def emptyTrScore : SessionScore :=
  (resultScore (score_session modelCompile defaultScorer 0 "s1".toList [])).getD junkScore

/-- Single-rule configuration used for the evidence-truncation example. -/
def c8Cfg : TrackerConfig :=
  { rules := [{ id := "c8_rule", name := "C8", description := "truncation demo",
                pattern := "é", weight := 1.0, category := RuleCategory.Startup }] }

/-- Transcript of 150 two-byte characters (300 bytes, no newline). -/
def c8Tr : List Char := List.replicate 150 'é'

/-- The score computed on the truncation example. -/
def c8Score : SessionScore :=
  (resultScore (score_session modelCompile (with_config modelCompile c8Cfg) 0
    "s1".toList c8Tr)).getD junkScore

/-- Single-rule configuration used for the panic example. -/
def panicCfg : TrackerConfig :=
  { rules := [{ id := "panic_rule", name := "P", description := "panic demo",
                pattern := "BEGIN", weight := 1.0, category := RuleCategory.Startup }] }

/-- Transcript of 201 bytes whose byte offset 200 falls inside a two-byte
character: `"BEGIN"` followed by 98 copies of a two-byte character. -/
def panicTr : List Char := "BEGIN".toList ++ List.replicate 98 'é'

/-- Faithfulness of one emitted RuleCheck to its RuleDefinition. -/
def checkFaithful (compile : String → Option Matcher) (compiled : List (String × Matcher))
    (transcript : List Char) (c : RuleCheck) (r : RuleDefinition) : Prop :=
  c.rule_id = r.id ∧ c.rule_name = r.name ∧ c.description = r.description ∧
  c.passed = passesRule compiled transcript r ∧
  c.confidence = (if passesRule compiled transcript r then 1 else 0) ∧
  (c.passed = true → extract_evidence compile transcript r.pattern = PRes.res c.evidence) ∧
  (c.passed = false → c.evidence = none) ∧
  c.suggestion = (if passesRule compiled transcript r then none
                  else some ("Consider: " ++ r.description))

lemma validate_transcript_ok {tr x : List Char}
    (h : validate_transcript tr = Except.ok x) : x = tr := by
  unfold validate_transcript at h
  split at h
  · exact Except.noConfusion h
  · split at h
    · exact Except.noConfusion h
    · injection h with h; exact h.symm

lemma scoreRules_spec (compile : String → Option Matcher)
    (compiled : List (String × Matcher)) (tr : List Char) :
    ∀ (l : List RuleDefinition) (cs : List RuleCheck) (pc : Nat) (tw pw : ℚ),
      scoreRules compile compiled tr l = PRes.res (cs, pc, tw, pw) →
      tw = totalWeight l ∧ pw = passedWeight compiled tr l ∧
      pc = passedCount compiled tr l ∧ cs.length = l.length ∧
      cs.map RuleCheck.rule_id = l.map RuleDefinition.id ∧
      List.Forall₂ (checkFaithful compile compiled tr) cs l := by
  intro l
  induction l with
  | nil =>
    intro cs pc tw pw h
    simp only [scoreRules, PRes.res.injEq, Prod.mk.injEq] at h
    obtain ⟨rfl, rfl, rfl, rfl⟩ := h
    simp [totalWeight, passedWeight, passedCount]
  | cons r rest ih =>
    intro cs pc tw pw h
    simp only [scoreRules] at h
    by_cases hp : passesRule compiled tr r
    · rw [if_pos hp] at h
      cases hev : extract_evidence compile tr r.pattern with
      | panicked => rw [hev] at h; exact PRes.noConfusion h
      | res evidence =>
        rw [hev] at h
        cases hrec : scoreRules compile compiled tr rest with
        | panicked => rw [hrec] at h; exact PRes.noConfusion h
        | res quad =>
          obtain ⟨cs2, pc2, tw2, pw2⟩ := quad
          rw [hrec] at h
          simp only [PRes.res.injEq, Prod.mk.injEq] at h
          obtain ⟨rfl, rfl, rfl, rfl⟩ := h
          obtain ⟨htw, hpw, hpc, hlen, hmap, hfa⟩ := ih cs2 pc2 tw2 pw2 hrec
          refine ⟨?_, ?_, ?_, ?_, ?_, ?_⟩
          · simp [totalWeight, htw]
          · simp [passedWeight, List.filter_cons, hp, hpw]
          · simp [passedCount, List.filter_cons, hp, hpc, Nat.add_comm]
          · simp [hlen]
          · simp [hmap]
          · refine List.Forall₂.cons ?_ hfa
            refine ⟨rfl, rfl, rfl, by simp [hp], by simp [hp], ?_, ?_, by simp [hp]⟩
            · intro _; simpa using hev
            · intro hfalse; simp [hp] at hfalse
    · rw [if_neg hp] at h
      cases hrec : scoreRules compile compiled tr rest with
      | panicked => rw [hrec] at h; exact PRes.noConfusion h
      | res quad =>
        obtain ⟨cs2, pc2, tw2, pw2⟩ := quad
        rw [hrec] at h
        simp only [PRes.res.injEq, Prod.mk.injEq] at h
        obtain ⟨rfl, rfl, rfl, rfl⟩ := h
        obtain ⟨htw, hpw, hpc, hlen, hmap, hfa⟩ := ih cs2 pc2 tw2 pw2 hrec
        refine ⟨?_, ?_, ?_, ?_, ?_, ?_⟩
        · simp [totalWeight, htw]
        · simp [passedWeight, List.filter_cons, hp, hpw]
        · simp [passedCount, List.filter_cons, hp, hpc]
        · simp [hlen]
        · simp [hmap]
        · refine List.Forall₂.cons ?_ hfa
          refine ⟨rfl, rfl, rfl, by simp [hp], by simp [hp], ?_, ?_, by simp [hp]⟩
          · intro htrue; simp [hp] at htrue
          · intro _; rfl

lemma score_session_ok_spec (compile : String → Option Matcher) (scorer : BehaviorScorer)
    (now : Nat) (sid tr : List Char) (s : SessionScore)
    (h : score_session compile scorer now sid tr = PRes.res (Except.ok s)) :
    validate_session_id sid = true ∧
    s.session_id = sid ∧ s.timestamp = now ∧
    s.total_rules = scorer.config.rules.length ∧
    s.passed_rules = passedCount scorer.compiled_rules tr scorer.config.rules ∧
    s.score_percentage =
      (if 0 < totalWeight scorer.config.rules then
        passedWeight scorer.compiled_rules tr scorer.config.rules /
          totalWeight scorer.config.rules * 100
       else 0) ∧
    s.rules.map RuleCheck.rule_id = scorer.config.rules.map RuleDefinition.id ∧
    s.rules.length = scorer.config.rules.length ∧
    List.Forall₂ (checkFaithful compile scorer.compiled_rules tr)
      s.rules scorer.config.rules := by
  unfold score_session at h
  split at h
  next => exact absurd h (by simp)
  next hval =>
    rw [Bool.not_eq_true', Bool.not_eq_false] at hval
    split at h
    next e hvt => exact absurd h (by simp)
    next tr2 hvt =>
      have htr : tr2 = tr := validate_transcript_ok hvt
      rw [htr] at h
      split at h
      next hsr => exact PRes.noConfusion h
      next checks pc tw pw hsr =>
        simp only [PRes.res.injEq, Except.ok.injEq] at h
        obtain ⟨htw, hpw, hpc, hlen, hmap, hfa⟩ := scoreRules_spec _ _ _ _ _ _ _ _ hsr
        subst h
        refine ⟨hval, rfl, rfl, by simpa using hlen, by simpa using hpc, ?_,
          by simpa using hmap, by simpa using hlen, by simpa using hfa⟩
        show (if 0 < tw then pw / tw * 100 else 0) = _
        rw [htw, hpw]

lemma totalWeight_nonneg {l : List RuleDefinition}
    (hw : ∀ r ∈ l, 0 < r.weight) : 0 ≤ totalWeight l := by
  refine List.sum_nonneg ?_
  intro x hx
  obtain ⟨r, hr, rfl⟩ := List.mem_map.mp hx
  exact le_of_lt (hw r hr)

lemma passedWeight_nonneg {compiled : List (String × Matcher)} {tr : List Char}
    {l : List RuleDefinition} (hw : ∀ r ∈ l, 0 < r.weight) :
    0 ≤ passedWeight compiled tr l := by
  refine List.sum_nonneg ?_
  intro x hx
  obtain ⟨r, hr, rfl⟩ := List.mem_map.mp hx
  exact le_of_lt (hw r (List.mem_of_mem_filter hr))

lemma passedWeight_le_totalWeight {compiled : List (String × Matcher)} {tr : List Char}
    {l : List RuleDefinition} (hw : ∀ r ∈ l, 0 < r.weight) :
    passedWeight compiled tr l ≤ totalWeight l := by
  refine List.Sublist.sum_le_sum (List.Sublist.map _ (List.filter_sublist l)) ?_
  intro x hx
  obtain ⟨r, hr, rfl⟩ := List.mem_map.mp hx
  exact le_of_lt (hw r hr)

lemma totalWeight_pos_of_ne {l : List RuleDefinition}
    (hw : ∀ r ∈ l, 0 < r.weight) (hne : totalWeight l ≠ 0) : 0 < totalWeight l :=
  lt_of_le_of_ne (totalWeight_nonneg hw) (Ne.symm hne)

lemma lookupA_insertA_self (m : List (String × Matcher)) (k : String) (v : Matcher) :
    lookupA (insertA m k v) k = some v := by
  induction m with
  | nil => simp [insertA, lookupA]
  | cons kv rest ih =>
    obtain ⟨k2, v2⟩ := kv
    by_cases hk : k2 = k
    · simp [insertA, hk, lookupA]
    · simp [insertA, hk, lookupA, ih]

lemma lookupA_insertA_ne (m : List (String × Matcher)) (k : String) (v : Matcher)
    (k2 : String) (h : k ≠ k2) : lookupA (insertA m k v) k2 = lookupA m k2 := by
  induction m with
  | nil => simp [insertA, lookupA, h]
  | cons kv rest ih =>
    obtain ⟨k3, v3⟩ := kv
    by_cases hk : k3 = k
    · subst hk
      simp [insertA, lookupA, h]
    · simp [insertA, hk, lookupA, ih]

/-- One step of the `compile_rules` fold. -/
def compileStep (compile : String → Option Matcher)
    (m : List (String × Matcher)) (rule : RuleDefinition) : List (String × Matcher) :=
  match compile rule.pattern with
  | some regex => insertA m rule.id regex
  | none => m

lemma compile_rules_eq_foldl (compile : String → Option Matcher) (config : TrackerConfig) :
    compile_rules compile config = config.rules.foldl (compileStep compile) [] := by
  rfl

lemma lookupA_foldl_of_ne (compile : String → Option Matcher) (k : String) :
    ∀ (l : List RuleDefinition) (acc : List (String × Matcher)),
      (∀ r ∈ l, r.id ≠ k) →
      lookupA (l.foldl (compileStep compile) acc) k = lookupA acc k := by
  intro l
  induction l with
  | nil => intro acc _; rfl
  | cons a t ih =>
    intro acc hne
    rw [List.foldl_cons]
    rw [ih _ (fun r hr => hne r (List.mem_cons_of_mem a hr))]
    unfold compileStep
    cases compile a.pattern with
    | some regex => exact lookupA_insertA_ne _ _ _ _ (hne a (List.mem_cons_self a t))
    | none => rfl

lemma lookupA_foldl_compile (compile : String → Option Matcher) (r : RuleDefinition) :
    ∀ (l : List RuleDefinition) (acc : List (String × Matcher)),
      (l.map RuleDefinition.id).Nodup → r ∈ l → lookupA acc r.id = none →
      lookupA (l.foldl (compileStep compile) acc) r.id = compile r.pattern := by
  intro l
  induction l with
  | nil => intro acc _ hr _; exact absurd hr (List.not_mem_nil r)
  | cons a t ih =>
    intro acc hnd hr hacc
    rw [List.map_cons, List.nodup_cons] at hnd
    rw [List.foldl_cons]
    rcases List.mem_cons.mp hr with rfl | hrt
    · rw [lookupA_foldl_of_ne compile r.id t _ ?_]
      · unfold compileStep
        cases hc : compile r.pattern with
        | some regex => exact lookupA_insertA_self _ _ _
        | none => exact hacc
      · intro r2 hr2 hid
        exact hnd.1 (hid ▸ List.mem_map_of_mem RuleDefinition.id hr2)
    · refine ih (compileStep compile acc a) hnd.2 hrt ?_
      unfold compileStep
      have hne : a.id ≠ r.id := by
        intro hid
        exact hnd.1 (hid ▸ List.mem_map_of_mem RuleDefinition.id hrt)
      cases compile a.pattern with
      | some regex => rw [lookupA_insertA_ne _ _ _ _ hne]; exact hacc
      | none => exact hacc

/-- Under unique rule ids, the compiled map sends each rule's id to exactly the
result of compiling that rule's pattern. -/
lemma lookupA_compile_rules (compile : String → Option Matcher) (config : TrackerConfig)
    (r : RuleDefinition) (hnd : (config.rules.map RuleDefinition.id).Nodup)
    (hr : r ∈ config.rules) :
    lookupA (compile_rules compile config) r.id = compile r.pattern := by
  rw [compile_rules_eq_foldl]
  exact lookupA_foldl_compile compile r config.rules [] hnd hr rfl

/-- When the pattern compiles, `extract_evidence` agrees with the spec-side
evidence description applied to the compiled matcher. -/
lemma extract_evidence_eq_specEvidence (compile : String → Option Matcher)
    (transcript : List Char) (pattern : String) (regex : Matcher)
    (hc : compile pattern = some regex) :
    extract_evidence compile transcript pattern = specEvidence regex transcript := by
  unfold extract_evidence specEvidence
  rw [hc]

lemma lookupC_insertC_self (m : CacheMap) (k : List Char) (v : CachedScore) :
    lookupC (insertC m k v) k = some v := by
  induction m with
  | nil => simp [insertC, lookupC]
  | cons kv rest ih =>
    obtain ⟨k2, v2⟩ := kv
    by_cases hk : k2 = k
    · simp [insertC, hk, lookupC]
    · simp [insertC, hk, lookupC, ih]

lemma lookupC_insertC_ne (m : CacheMap) (k : List Char) (v : CachedScore)
    (k2 : List Char) (h : k ≠ k2) : lookupC (insertC m k v) k2 = lookupC m k2 := by
  induction m with
  | nil => simp [insertC, lookupC, h]
  | cons kv rest ih =>
    obtain ⟨k3, v3⟩ := kv
    by_cases hk : k3 = k
    · subst hk
      simp [insertC, lookupC, h]
    · simp [insertC, hk, lookupC, ih]

lemma batchPhase1_spec (ttl : Nat) (cache : CacheMap) (now : Nat) :
    ∀ l : List (List Char × List Char),
      batchPhase1 ttl cache now l =
        (l.filterMap (fun p => (ScoreCache.get ttl cache now p.1).map Except.ok),
         l.filter (fun p => (ScoreCache.get ttl cache now p.1).isNone)) := by
  intro l
  induction l with
  | nil => rfl
  | cons p rest ih =>
    obtain ⟨session_id, transcript⟩ := p
    cases hg : ScoreCache.get ttl cache now session_id with
    | some cached =>
      simp [batchPhase1, ih, hg, List.filterMap_cons, List.filter_cons]
    | none =>
      simp [batchPhase1, ih, hg, List.filterMap_cons, List.filter_cons]

lemma runMisses_lookup_isSome_mono (compile : String → Option Matcher)
    (scorer : BehaviorScorer) (now : Nat) :
    ∀ (l : List (List Char × List Char)) (cache : CacheMap)
      (rs : List (Except String SessionScore)) (cache2 : CacheMap) (n : Nat)
      (k : List Char),
      runMisses compile scorer now l cache = PRes.res (rs, cache2, n) →
      (lookupC cache k).isSome = true → (lookupC cache2 k).isSome = true := by
  intro l
  induction l with
  | nil =>
    intro cache rs cache2 n k h hk
    simp only [runMisses, PRes.res.injEq, Prod.mk.injEq] at h
    obtain ⟨-, rfl, -⟩ := h
    exact hk
  | cons p rest ih =>
    intro cache rs cache2 n k h hk
    obtain ⟨session_id, transcript⟩ := p
    simp only [runMisses] at h
    split at h
    next => exact PRes.noConfusion h
    next result hs =>
      split at h
      next => exact PRes.noConfusion h
      next results cache3 m hrec =>
        simp only [PRes.res.injEq, Prod.mk.injEq] at h
        obtain ⟨-, rfl, -⟩ := h
        cases result with
        | ok score =>
          have hrec2 : runMisses compile scorer now rest
              (ScoreCache.set cache session_id score now) =
              PRes.res (results, cache3, m) := hrec
          refine ih (ScoreCache.set cache session_id score now) results cache3 m k hrec2 ?_
          by_cases hkk : session_id = k
          · subst hkk
            simp [ScoreCache.set, lookupC_insertC_self]
          · simpa [ScoreCache.set, lookupC_insertC_ne _ _ _ _ hkk] using hk
        | error e =>
          have hrec2 : runMisses compile scorer now rest cache =
              PRes.res (results, cache3, m) := hrec
          exact ih cache results cache3 m k hrec2 hk

lemma runMisses_spec (compile : String → Option Matcher) (scorer : BehaviorScorer)
    (now : Nat) :
    ∀ (l : List (List Char × List Char)) (cache : CacheMap)
      (rs : List (Except String SessionScore)) (cache2 : CacheMap) (n : Nat),
      runMisses compile scorer now l cache = PRes.res (rs, cache2, n) →
      n = l.length ∧ rs.length = l.length ∧
      List.Forall₂ (fun r p => score_session compile scorer now p.1 p.2 = PRes.res r) rs l ∧
      (∀ k e, lookupC cache2 k = some e → lookupC cache k = some e ∨
         (e.timestamp = now ∧ ∃ p ∈ l, p.1 = k ∧
            score_session compile scorer now p.1 p.2 = PRes.res (Except.ok e.score))) ∧
      (∀ p ∈ l,
         (∃ s0, score_session compile scorer now p.1 p.2 = PRes.res (Except.ok s0)) →
         (lookupC cache2 p.1).isSome = true) := by
  intro l
  induction l with
  | nil =>
    intro cache rs cache2 n h
    simp only [runMisses, PRes.res.injEq, Prod.mk.injEq] at h
    obtain ⟨rfl, rfl, rfl⟩ := h
    simp
  | cons p rest ih =>
    intro cache rs cache2 n h
    obtain ⟨session_id, transcript⟩ := p
    simp only [runMisses] at h
    split at h
    next => exact PRes.noConfusion h
    next result hs =>
      split at h
      next => exact PRes.noConfusion h
      next results cache3 m hrec =>
        simp only [PRes.res.injEq, Prod.mk.injEq] at h
        obtain ⟨rfl, rfl, rfl⟩ := h
        cases result with
        | ok score =>
          have hrec2 : runMisses compile scorer now rest
              (ScoreCache.set cache session_id score now) =
              PRes.res (results, cache3, m) := hrec
          obtain ⟨hn, hlen, hfa, hcache, hstored⟩ :=
            ih (ScoreCache.set cache session_id score now) results cache3 m hrec2
          refine ⟨by simp [hn], by simp [hlen], List.Forall₂.cons hs hfa, ?_, ?_⟩
          · intro k e hke
            rcases hcache k e hke with hold | hnew
            · by_cases hkk : session_id = k
              · subst hkk
                rw [ScoreCache.set, lookupC_insertC_self] at hold
                injection hold with hold
                refine Or.inr ⟨by rw [← hold], ⟨(session_id, transcript), ?_, rfl, ?_⟩⟩
                · exact List.mem_cons_self _ _
                · rw [← hold]; exact hs
              · rw [ScoreCache.set, lookupC_insertC_ne _ _ _ _ hkk] at hold
                exact Or.inl hold
            · obtain ⟨ht, q, hq, hqk, hqs⟩ := hnew
              exact Or.inr ⟨ht, q, List.mem_cons_of_mem _ hq, hqk, hqs⟩
          · intro q hq hsucc
            rcases List.mem_cons.mp hq with rfl | hqrest
            · refine runMisses_lookup_isSome_mono compile scorer now rest _ results cache3 m
                session_id hrec2 ?_
              simp [ScoreCache.set, lookupC_insertC_self]
            · exact hstored q hqrest hsucc
        | error e =>
          have hrec2 : runMisses compile scorer now rest cache =
              PRes.res (results, cache3, m) := hrec
          obtain ⟨hn, hlen, hfa, hcache, hstored⟩ := ih cache results cache3 m hrec2
          refine ⟨by simp [hn], by simp [hlen], List.Forall₂.cons hs hfa, ?_, ?_⟩
          · intro k e hke
            rcases hcache k e hke with hold | hnew
            · exact Or.inl hold
            · obtain ⟨ht, q, hq, hqk, hqs⟩ := hnew
              exact Or.inr ⟨ht, q, List.mem_cons_of_mem _ hq, hqk, hqs⟩
          · intro q hq hsucc
            rcases List.mem_cons.mp hq with rfl | hqrest
            · obtain ⟨s0, hs0⟩ := hsucc
              rw [hs] at hs0
              injection hs0 with hs0
              exact absurd hs0 (fun g => Except.noConfusion g)
            · exact hstored q hqrest hsucc

lemma retryGo_permanent {T : Type} (config : RetryConfig)
    (operation : Nat → Except RetryError T) (a d : Nat) (e : String)
    (h : operation a = Except.error (RetryError.Permanent e)) :
    retryGo config operation a d = (Except.error (RetryError.Permanent e), 1, []) := by
  rw [retryGo, h]

lemma retryGo_bound {T : Type} (config : RetryConfig)
    (operation : Nat → Except RetryError T) :
    ∀ (fuel a d : Nat), config.max_attempts - a = fuel →
      1 ≤ (retryGo config operation a d).2.1 ∧
      (retryGo config operation a d).2.1 ≤ max 1 fuel ∧
      (retryGo config operation a d).2.2 =
        delaySeq config d ((retryGo config operation a d).2.1 - 1) := by
  intro fuel
  induction fuel with
  | zero =>
    intro a d hfuel
    cases hopa : operation a with
    | ok r => rw [retryGo, hopa]; exact ⟨le_refl 1, by simp, rfl⟩
    | error e =>
      cases e with
      | Permanent m => rw [retryGo, hopa]; exact ⟨le_refl 1, by simp, rfl⟩
      | Transient m =>
        rw [retryGo, hopa]
        simp only []
        rw [dif_pos (by omega)]
        exact ⟨le_refl 1, by simp, rfl⟩
      | MaxRetriesExceeded m =>
        rw [retryGo, hopa]
        simp only []
        rw [dif_pos (by omega)]
        exact ⟨le_refl 1, by simp, rfl⟩
  | succ k ih =>
    intro a d hfuel
    cases hopa : operation a with
    | ok r => rw [retryGo, hopa]; exact ⟨le_refl 1, by simp, rfl⟩
    | error e =>
      cases e with
      | Permanent m => rw [retryGo, hopa]; exact ⟨le_refl 1, by simp, rfl⟩
      | Transient m =>
        rw [retryGo, hopa]
        simp only []
        by_cases hge : a + 1 ≥ config.max_attempts
        · rw [dif_pos hge]
          exact ⟨le_refl 1, by simp, rfl⟩
        · rw [dif_neg hge]
          obtain ⟨h1, h2, h3⟩ := ih (a + 1) (nextDelay config d) (by omega)
          have hk : 1 ≤ k := by omega
          simp only []
          refine ⟨by omega, by omega, ?_⟩
          rw [h3]
          have hn : (retryGo config operation (a + 1) (nextDelay config d)).2.1 + 1 - 1 =
              ((retryGo config operation (a + 1) (nextDelay config d)).2.1 - 1) + 1 := by
            omega
          rw [hn, delaySeq]
      | MaxRetriesExceeded m =>
        rw [retryGo, hopa]
        simp only []
        by_cases hge : a + 1 ≥ config.max_attempts
        · rw [dif_pos hge]
          exact ⟨le_refl 1, by simp, rfl⟩
        · rw [dif_neg hge]
          obtain ⟨h1, h2, h3⟩ := ih (a + 1) (nextDelay config d) (by omega)
          have hk : 1 ≤ k := by omega
          simp only []
          refine ⟨by omega, by omega, ?_⟩
          rw [h3]
          have hn : (retryGo config operation (a + 1) (nextDelay config d)).2.1 + 1 - 1 =
              ((retryGo config operation (a + 1) (nextDelay config d)).2.1 - 1) + 1 := by
            omega
          rw [hn, delaySeq]

lemma retryGo_all_transient {T : Type} (config : RetryConfig)
    (operation : Nat → Except RetryError T) (f : Nat → String) :
    ∀ (fuel a d : Nat), config.max_attempts - a = fuel → a < config.max_attempts →
      (∀ i, a ≤ i → i < config.max_attempts →
        operation i = Except.error (RetryError.Transient (f i))) →
      retryGo config operation a d =
        (Except.error (RetryError.MaxRetriesExceeded
          ("Transient error: " ++ f (config.max_attempts - 1))),
         config.max_attempts - a,
         delaySeq config d (config.max_attempts - a - 1)) := by
  intro fuel
  induction fuel with
  | zero => intro a d hfuel ha _; omega
  | succ k ih =>
    intro a d hfuel ha hop
    rw [retryGo, hop a (le_refl a) ha]
    simp only []
    by_cases hge : a + 1 ≥ config.max_attempts
    · rw [dif_pos hge]
      have hmax : config.max_attempts - a = 1 := by omega
      have hlast : a = config.max_attempts - 1 := by omega
      rw [hmax, hlast]
      rfl
    · rw [dif_neg hge]
      rw [ih (a + 1) (nextDelay config d) (by omega) (by omega)
        (fun i hi1 hi2 => hop i (by omega) hi2)]
      have h1 : config.max_attempts - (a + 1) + 1 = config.max_attempts - a := by omega
      have h2 : config.max_attempts - a - 1 = (config.max_attempts - (a + 1) - 1) + 1 := by
        omega
      simp only []
      rw [h1, h2, delaySeq]

lemma validate_session_id_iff (sid : List Char) :
    validate_session_id sid = true ↔ specValidSessionId sid := by
  unfold validate_session_id specValidSessionId
  simp only [Bool.and_eq_true, List.all_eq_true, Bool.not_eq_true', List.isEmpty_eq_false,
    decide_eq_true_eq, ne_eq]
  tauto

lemma validate_transcript_eq_ok_iff (tr : List Char) :
    validate_transcript tr = Except.ok tr ↔ specValidTranscript tr := by
  unfold validate_transcript specValidTranscript
  by_cases h1 : utf8Len tr > 10 * 1024 * 1024
  · rw [if_pos h1]
    constructor
    · intro h; exact absurd h (by simp)
    · intro h; omega
  · rw [if_neg h1]
    by_cases h2 : tr.contains '\x00'
    · rw [if_pos h2]
      constructor
      · intro h; exact absurd h (by simp)
      · intro h
        exact absurd ((List.elem_iff).mp h2) h.2
    · rw [if_neg h2]
      constructor
      · intro _
        exact ⟨by omega, fun hmem => h2 ((List.elem_iff).mpr hmem)⟩
      · intro _; rfl

lemma forall₂_imp_of_mem {α β : Type} (R S : α → β → Prop) :
    ∀ (cs : List α) (l : List β), List.Forall₂ R cs l →
      (∀ c r, r ∈ l → R c r → S c r) → List.Forall₂ S cs l := by
  intro cs l h
  induction h with
  | nil => intro _; exact List.Forall₂.nil
  | cons hr hrest ih =>
    intro hmem
    exact List.Forall₂.cons (hmem _ _ (List.mem_cons_self _ _) hr)
      (ih fun c r hrl => hmem c r (List.mem_cons_of_mem _ hrl))

lemma specEvidence_ne_none (rx : Matcher) (tr : List Char) (ev : Option (List Char))
    (hm : (rx tr).isSome = true) (h : specEvidence rx tr = PRes.res ev) : ev ≠ none := by
  unfold specEvidence at h
  cases hrx : rx tr with
  | none => rw [hrx] at hm; exact absurd hm (by simp)
  | some mat =>
    rw [hrx] at h
    simp only [] at h
    split at h
    · split at h
      · injection h with h
        rw [← h]
        simp
      · exact PRes.noConfusion h
    · injection h with h
      rw [← h]
      simp

lemma hits_misses_length (ttl : Nat) (cache : CacheMap) (now : Nat) :
    ∀ l : List (List Char × List Char),
      (l.filterMap (fun p => (ScoreCache.get ttl cache now p.1).map
        (fun sc => (Except.ok sc : Except String SessionScore)))).length +
      (l.filter (fun p => (ScoreCache.get ttl cache now p.1).isNone)).length = l.length := by
  intro l
  induction l with
  | nil => rfl
  | cons p rest ih =>
    cases hg : ScoreCache.get ttl cache now p.1 with
    | some cached =>
      simp only [List.filterMap_cons, List.filter_cons, hg, Option.map_some', Option.isNone_some]
      simp only [Bool.false_eq_true, if_false, List.length_cons]
      omega
    | none =>
      simp only [List.filterMap_cons, List.filter_cons, hg, Option.map_none', Option.isNone_none]
      simp only [if_true, List.length_cons]
      omega

/-- The score of the single-bad-pattern configuration on the empty transcript. -/
def badScoreS : SessionScore :=
  (resultScore (score_session modelCompile (with_config modelCompile badCfg) 0
    "s1".toList [])).getD junkScore

/-- C1: for every scorer configuration (with positive rule weights, as the data
model requires) and every valid input, `score_session` computes
`score_percentage` as the sum of the weights of the matching rules divided by
the sum of all weights, times 100, and 0 when the total weight is 0; in
particular, two rules of weights 1 and 3 where only the second matches yield
`score_percentage = 75.0`. -/
theorem c1_score_formula :
    (∀ (compile : String → Option Matcher) (cfg : TrackerConfig) (now : Nat)
       (sid tr : List Char) (s : SessionScore),
       (∀ r ∈ cfg.rules, 0 < r.weight) →
       score_session compile (with_config compile cfg) now sid tr =
         PRes.res (Except.ok s) →
       (totalWeight cfg.rules = 0 → s.score_percentage = 0) ∧
       (totalWeight cfg.rules ≠ 0 →
         s.score_percentage =
           passedWeight (compile_rules compile cfg) tr cfg.rules /
             totalWeight cfg.rules * 100)) ∧
    score_session modelCompile (with_config modelCompile demoCfg) 0 "s1".toList demoTr =
      PRes.res (Except.ok demoS1) ∧
    demoS1.score_percentage = 75 := by
  have main : ∀ (compile : String → Option Matcher) (cfg : TrackerConfig) (now : Nat)
      (sid tr : List Char) (s : SessionScore),
      (∀ r ∈ cfg.rules, 0 < r.weight) →
      score_session compile (with_config compile cfg) now sid tr =
        PRes.res (Except.ok s) →
      (totalWeight cfg.rules = 0 → s.score_percentage = 0) ∧
      (totalWeight cfg.rules ≠ 0 →
        s.score_percentage =
          passedWeight (compile_rules compile cfg) tr cfg.rules /
            totalWeight cfg.rules * 100) := by
    intro compile cfg now sid tr s hw h
    have hspec := score_session_ok_spec compile (with_config compile cfg) now sid tr s h
    have hscore := hspec.2.2.2.2.2.1
    simp only [with_config] at hscore
    constructor
    · intro h0
      rw [hscore, h0]
      simp
    · intro hne
      rw [hscore, if_pos (totalWeight_pos_of_ne hw hne)]
  refine ⟨main, rfl, ?_⟩
  have h75 := (main modelCompile demoCfg 0 "s1".toList demoTr demoS1
    (by intro r hr; simp [demoCfg] at hr
        rcases hr with rfl | rfl <;> norm_num [demoRuleA, demoRuleB]) rfl).2
  rw [h75 (by norm_num [totalWeight, demoCfg, demoRuleA, demoRuleB])]
  have hA : passesRule (compile_rules modelCompile demoCfg) demoTr demoRuleA = false := by
    decide
  have hB : passesRule (compile_rules modelCompile demoCfg) demoTr demoRuleB = true := by
    decide
  have hr : demoCfg.rules = [demoRuleA, demoRuleB] := rfl
  have hfil : List.filter (passesRule (compile_rules modelCompile demoCfg) demoTr)
      demoCfg.rules = [demoRuleB] := by
    rw [hr]
    simp only [List.filter_cons, hA, hB, Bool.false_eq_true, if_false, if_true,
      List.filter_nil]
  unfold passedWeight totalWeight
  rw [hfil, hr]
  norm_num [demoRuleA, demoRuleB]

/-- C1 witness: the score formula instantiated on the two-rule example. -/
theorem c1_score_formula_witness :
    (totalWeight demoCfg.rules = 0 → demoS1.score_percentage = 0) ∧
    (totalWeight demoCfg.rules ≠ 0 →
      demoS1.score_percentage =
        passedWeight (compile_rules modelCompile demoCfg) demoTr demoCfg.rules /
          totalWeight demoCfg.rules * 100) :=
  c1_score_formula.1 modelCompile demoCfg 0 "s1".toList demoTr demoS1
    (by intro r hr; simp [demoCfg] at hr
        rcases hr with rfl | rfl <;> norm_num [demoRuleA, demoRuleB]) rfl

/-- C2 counterexample: a configuration whose single rule has a pattern that
fails to compile (`Regex::new("(")` errors on the unclosed group) yields
`total_rules = 1` although the number of successfully compiled rules is 0, so
`total_rules` is not the number of rules with a successfully compiled pattern. -/
theorem c2_counterexample :
    (resultScore (score_session modelCompile (with_config modelCompile badCfg) 0
      "s1".toList [])).map SessionScore.total_rules = some 1 ∧
    (compile_rules modelCompile badCfg).length = 0 := by
  exact ⟨by decide, by decide⟩

/-- C2 amended: `passed_rules ≤ total_rules`, and `total_rules` equals the
total number of configured rules (compiled or not); every RuleDefinition —
whether or not its pattern compiled — appears exactly once in the rule list,
in rule-definition order. -/
theorem c2_amended :
    ∀ (compile : String → Option Matcher) (cfg : TrackerConfig) (now : Nat)
      (sid tr : List Char) (s : SessionScore),
      score_session compile (with_config compile cfg) now sid tr =
        PRes.res (Except.ok s) →
      s.passed_rules ≤ s.total_rules ∧
      s.total_rules = cfg.rules.length ∧
      s.rules.map RuleCheck.rule_id = cfg.rules.map RuleDefinition.id := by
  intro compile cfg now sid tr s h
  have hspec := score_session_ok_spec compile (with_config compile cfg) now sid tr s h
  have htot : s.total_rules = cfg.rules.length := by
    simpa [with_config] using hspec.2.2.2.1
  refine ⟨?_, htot, by simpa [with_config] using hspec.2.2.2.2.2.2.1⟩
  have hpc : s.passed_rules = passedCount (compile_rules compile cfg) tr cfg.rules := by
    simpa [with_config] using hspec.2.2.2.2.1
  rw [hpc, htot]
  exact List.length_filter_le _ _

/-- C2 witness: the amended invariants on the bad-pattern configuration. -/
theorem c2_amended_witness :
    badScoreS.passed_rules ≤ badScoreS.total_rules ∧
    badScoreS.total_rules = badCfg.rules.length ∧
    badScoreS.rules.map RuleCheck.rule_id = badCfg.rules.map RuleDefinition.id :=
  c2_amended modelCompile badCfg 0 "s1".toList [] badScoreS rfl

/-- C3: scoring the empty transcript with session id "s1" against the built-in
default 8-rule set yields `total_rules = 8`, `passed_rules = 0` and
`score_percentage = 0.0`: the `explanation_volume` pattern uses a negative
look-ahead that `Regex::new` rejects, so that rule is dropped at compilation and
always fails, and none of the seven literal-alternation patterns matches the
empty string. -/
theorem c3_empty_transcript :
    (resultScore (score_session modelCompile defaultScorer 0 "s1".toList [])).map
      (fun s => (s.total_rules, s.passed_rules)) = some (8, 0) ∧
    (resultScore (score_session modelCompile defaultScorer 0 "s1".toList [])).map
      SessionScore.score_percentage = some 0 := by
  refine ⟨by decide, ?_⟩
  have hok : score_session modelCompile defaultScorer 0 "s1".toList [] =
      PRes.res (Except.ok emptyTrScore) := rfl
  rw [hok]
  simp only [resultScore, Option.map_some', Option.some.injEq]
  have hspec := score_session_ok_spec modelCompile defaultScorer 0 "s1".toList []
    emptyTrScore hok
  rw [hspec.2.2.2.2.2.1]
  have h1 : passesRule defaultScorer.compiled_rules [] ruleLocalMemory = false := by decide
  have h2 : passesRule defaultScorer.compiled_rules [] ruleTimeOfDay = false := by decide
  have h3 : passesRule defaultScorer.compiled_rules [] ruleConfidence = false := by decide
  have h4 : passesRule defaultScorer.compiled_rules [] ruleExplanation = false := by decide
  have h5 : passesRule defaultScorer.compiled_rules [] ruleBinary = false := by decide
  have h6 : passesRule defaultScorer.compiled_rules [] ruleObjective = false := by decide
  have h7 : passesRule defaultScorer.compiled_rules [] ruleNoEmail = false := by decide
  have h8 : passesRule defaultScorer.compiled_rules [] ruleApproval = false := by decide
  have hcfg : defaultScorer.config = default_config := rfl
  rw [hcfg]
  have hr : default_config.rules = [ruleLocalMemory, ruleTimeOfDay, ruleConfidence,
      ruleExplanation, ruleBinary, ruleObjective, ruleNoEmail, ruleApproval] := rfl
  have hfil : List.filter (passesRule defaultScorer.compiled_rules [])
      default_config.rules = [] := by
    rw [hr]
    simp only [List.filter_cons, h1, h2, h3, h4, h5, h6, h7, h8, Bool.false_eq_true,
      if_false, List.filter_nil]
  unfold passedWeight totalWeight
  rw [hfil, hr]
  norm_num [ruleLocalMemory, ruleTimeOfDay, ruleConfidence, ruleExplanation,
    ruleBinary, ruleObjective, ruleNoEmail, ruleApproval]

/-- C4 counterexample: a session id of 129 two-byte alphanumeric characters
(258 UTF-8 bytes, 129 characters) is rejected with the `InvalidInput` error
although it is non-empty, at most 256 characters long, and made only of
alphanumerics — the length limit is enforced on bytes, not characters. -/
theorem c4_counterexample :
    score_session modelCompile defaultScorer 0 (List.replicate 129 'é') [] =
      PRes.res (Except.error "Invalid session ID") ∧
    (List.replicate 129 'é').length ≤ 256 ∧
    List.replicate 129 'é' ≠ [] ∧
    (List.replicate 129 'é').all
      (fun c => isAlphanumericRust c || c == '-' || c == '_') = true := by
  exact ⟨by decide, by decide, by decide, by decide⟩

/-- C4 amended: `score_session` returns an error exactly when the session id is
empty, longer than 256 bytes, or contains a character other than alphanumerics,
hyphens and underscores, or the transcript exceeds 10 MiB or contains a null
byte; these are its only error returns. -/
theorem c4_amended :
    ∀ (compile : String → Option Matcher) (scorer : BehaviorScorer) (now : Nat)
      (sid tr : List Char),
      (∃ e, score_session compile scorer now sid tr = PRes.res (Except.error e)) ↔
      ¬(specValidSessionId sid ∧ specValidTranscript tr) := by
  intro compile scorer now sid tr
  constructor
  · rintro ⟨e, he⟩ hvalid
    obtain ⟨hsv, htv⟩ := hvalid
    have hs : validate_session_id sid = true := (validate_session_id_iff sid).mpr hsv
    have ht : validate_transcript tr = Except.ok tr :=
      (validate_transcript_eq_ok_iff tr).mpr htv
    unfold score_session at he
    rw [if_neg (by simp [hs]), ht] at he
    simp only [] at he
    cases hsr : scoreRules compile scorer.compiled_rules tr scorer.config.rules with
    | panicked => rw [hsr] at he; exact PRes.noConfusion he
    | res quad =>
      obtain ⟨checks, pc, tw, pw⟩ := quad
      rw [hsr] at he
      simp at he
  · intro hinvalid
    by_cases hs : validate_session_id sid = true
    · have hsv : specValidSessionId sid := (validate_session_id_iff sid).mp hs
      have htv : ¬specValidTranscript tr := fun ht => hinvalid ⟨hsv, ht⟩
      cases hvt : validate_transcript tr with
      | error e =>
        refine ⟨e, ?_⟩
        unfold score_session
        rw [if_neg (by simp [hs]), hvt]
      | ok x =>
        have hx : x = tr := validate_transcript_ok hvt
        rw [hx] at hvt
        exact absurd ((validate_transcript_eq_ok_iff tr).mp hvt) htv
    · refine ⟨"Invalid session ID", ?_⟩
      unfold score_session
      rw [if_pos (by simp [hs])]

/-- C4 witness: the amended failure condition instantiated on the slash id. -/
theorem c4_amended_witness :
    ¬(specValidSessionId "a/b".toList ∧ specValidTranscript []) :=
  (c4_amended modelCompile defaultScorer 0 "a/b".toList []).mp
    ⟨"Invalid session ID", by decide⟩

/-- C9: for every scorer whose rules all have positive weight and every valid
input, the computed `score_percentage` lies between 0 and 100. -/
theorem c9_bounded :
    ∀ (compile : String → Option Matcher) (cfg : TrackerConfig) (now : Nat)
      (sid tr : List Char) (s : SessionScore),
      (∀ r ∈ cfg.rules, 0 < r.weight) →
      score_session compile (with_config compile cfg) now sid tr =
        PRes.res (Except.ok s) →
      0 ≤ s.score_percentage ∧ s.score_percentage ≤ 100 := by
  intro compile cfg now sid tr s hw h
  have hspec := score_session_ok_spec compile (with_config compile cfg) now sid tr s h
  have hscore := hspec.2.2.2.2.2.1
  simp only [with_config] at hscore
  rw [hscore]
  by_cases hpos : 0 < totalWeight cfg.rules
  · rw [if_pos hpos]
    constructor
    · refine mul_nonneg (div_nonneg (passedWeight_nonneg hw) (le_of_lt hpos)) ?_
      norm_num
    · calc passedWeight (compile_rules compile cfg) tr cfg.rules /
            totalWeight cfg.rules * 100
          ≤ 1 * 100 := by
            refine mul_le_mul_of_nonneg_right ?_ (by norm_num)
            exact (div_le_one hpos).mpr (passedWeight_le_totalWeight hw)
        _ = 100 := by norm_num
  · rw [if_neg hpos]
    norm_num

/-- C9 witness: the bounds instantiated on the two-rule example. -/
theorem c9_bounded_witness :
    0 ≤ demoS1.score_percentage ∧ demoS1.score_percentage ≤ 100 :=
  c9_bounded modelCompile demoCfg 0 "s1".toList demoTr demoS1
    (by intro r hr; simp [demoCfg] at hr
        rcases hr with rfl | rfl <;> norm_num [demoRuleA, demoRuleB]) rfl

/-- C10: `score_session` is not total on validated inputs — on a valid session
id and a valid 201-byte transcript whose byte offset 200 falls inside a
two-byte character, the evidence truncation `&evidence[..200]` slices off a
character boundary and the evaluation panics. -/
theorem c10_panic :
    score_session modelCompile (with_config modelCompile panicCfg) 0 "s1".toList
      panicTr = PRes.panicked ∧
    validate_session_id "s1".toList = true ∧
    validate_transcript panicTr = Except.ok panicTr := by
  exact ⟨by decide, by decide, by decide⟩

/-- C6: after `set(id, score)` at instant `t0`, `get(id)` at instant `now`
returns the score exactly while the elapsed time is strictly below the TTL and
nothing once it reaches it; `set` unconditionally overwrites any existing entry
for the id with a fresh timestamp.  (`get` is a pure read by construction — it
returns a value without producing a new cache state.) -/
theorem c6_cache_correct :
    ∀ (ttl : Nat) (cache : CacheMap) (sid : List Char) (score : SessionScore)
      (t0 now : Nat), t0 ≤ now →
      ScoreCache.get ttl (ScoreCache.set cache sid score t0) now sid =
        (if now - t0 < ttl then some score else none) ∧
      lookupC (ScoreCache.set cache sid score t0) sid =
        some { score := score, timestamp := t0 } := by
  intro ttl cache sid score t0 now _
  refine ⟨?_, lookupC_insertC_self cache sid _⟩
  unfold ScoreCache.get ScoreCache.set
  rw [lookupC_insertC_self]
  rfl

/-- C6 witness: a fresh entry read back within the TTL. -/
theorem c6_cache_correct_witness :
    ScoreCache.get 60 (ScoreCache.set [] "a1".toList junkScore 0) 59 "a1".toList =
      (if 59 - 0 < 60 then some junkScore else none) ∧
    lookupC (ScoreCache.set [] "a1".toList junkScore 0) "a1".toList =
      some { score := junkScore, timestamp := 0 } :=
  c6_cache_correct 60 [] "a1".toList junkScore 0 59 (by decide)

/-- C7: with `max_attempts ≥ 1`, `retry_with_backoff` invokes the operation at
most `max_attempts` times; if every attempt is transient it returns
`MaxRetriesExceeded` wrapping the rendering of the last failure after exactly
`max_attempts` invocations; a permanent error on the first attempt yields
exactly one invocation and the immediate `Permanent` error; and the sleeps
performed are the base delay grown by `nextDelay` (multiply by
`backoff_multiplier`, truncate, cap at `max_delay_ms`) at each step. -/
theorem c7_retry_bound {T : Type} (config : RetryConfig)
    (operation : Nat → Except RetryError T) (hmax : 1 ≤ config.max_attempts) :
    (retry_with_backoff config operation).2.1 ≤ config.max_attempts ∧
    (∀ f : Nat → String,
      (∀ i, i < config.max_attempts →
        operation i = Except.error (RetryError.Transient (f i))) →
      retry_with_backoff config operation =
        (Except.error (RetryError.MaxRetriesExceeded
          ("Transient error: " ++ f (config.max_attempts - 1))),
         config.max_attempts,
         delaySeq config config.base_delay_ms (config.max_attempts - 1))) ∧
    (∀ e, operation 0 = Except.error (RetryError.Permanent e) →
      retry_with_backoff config operation =
        (Except.error (RetryError.Permanent e), 1, [])) ∧
    (retry_with_backoff config operation).2.2 =
      delaySeq config config.base_delay_ms
        ((retry_with_backoff config operation).2.1 - 1) := by
  obtain ⟨h1, h2, h3⟩ := retryGo_bound config operation config.max_attempts 0
    config.base_delay_ms (by omega)
  refine ⟨?_, ?_, ?_, h3⟩
  · unfold retry_with_backoff
    omega
  · intro f hf
    have := retryGo_all_transient config operation f config.max_attempts 0
      config.base_delay_ms (by omega) (by omega) (fun i _ hi2 => hf i hi2)
    unfold retry_with_backoff
    simpa using this
  · intro e he
    exact retryGo_permanent config operation 0 config.base_delay_ms e he

/-- Retry configuration for the witness: 3 attempts, delays 5 → 8 (capped). -/
def demoRetryCfg : RetryConfig :=
  { max_attempts := 3, base_delay_ms := 5, max_delay_ms := 8, backoff_multiplier := 2 }

/-- An operation that always fails transiently. -/
def demoRetryOp : Nat → Except RetryError Unit :=
  fun _ => Except.error (RetryError.Transient "x")

/-- C7 witness: the retry bound instantiated on a small always-transient run. -/
theorem c7_retry_bound_witness :
    (retry_with_backoff demoRetryCfg demoRetryOp).2.1 ≤ demoRetryCfg.max_attempts ∧
    (∀ f : Nat → String,
      (∀ i, i < demoRetryCfg.max_attempts →
        demoRetryOp i = Except.error (RetryError.Transient (f i))) →
      retry_with_backoff demoRetryCfg demoRetryOp =
        (Except.error (RetryError.MaxRetriesExceeded
          ("Transient error: " ++ f (demoRetryCfg.max_attempts - 1))),
         demoRetryCfg.max_attempts,
         delaySeq demoRetryCfg demoRetryCfg.base_delay_ms
           (demoRetryCfg.max_attempts - 1))) ∧
    (∀ e, demoRetryOp 0 = Except.error (RetryError.Permanent e) →
      retry_with_backoff demoRetryCfg demoRetryOp =
        (Except.error (RetryError.Permanent e), 1, [])) ∧
    (retry_with_backoff demoRetryCfg demoRetryOp).2.2 =
      delaySeq demoRetryCfg demoRetryCfg.base_delay_ms
        ((retry_with_backoff demoRetryCfg demoRetryOp).2.1 - 1) :=
  c7_retry_bound demoRetryCfg demoRetryOp (by decide)

/-- C5: every batch run emits exactly one result per input pair; the engine is
invoked exactly once per cache miss (hits are served from the cache, in input
order, before the miss results); each miss's engine result is emitted; and the
final cache contains only the initial entries plus the successful miss results
(failed evaluations are not stored), with every successful miss present. -/
theorem c5_batch_results :
    ∀ (compile : String → Option Matcher) (scorer : BehaviorScorer) (ttl now : Nat)
      (sessions : List (List Char × List Char)) (cache : CacheMap)
      (rs : List (Except String SessionScore)) (cache2 : CacheMap) (n : Nat),
      score_sessions_batch compile scorer ttl now sessions cache =
        PRes.res (rs, cache2, n) →
      rs.length = sessions.length ∧
      n = (sessions.filter (fun p => (ScoreCache.get ttl cache now p.1).isNone)).length ∧
      (∃ ms, rs = sessions.filterMap
          (fun p => (ScoreCache.get ttl cache now p.1).map Except.ok) ++ ms ∧
        List.Forall₂ (fun r p => score_session compile scorer now p.1 p.2 = PRes.res r)
          ms (sessions.filter (fun p => (ScoreCache.get ttl cache now p.1).isNone))) ∧
      (∀ k e, lookupC cache2 k = some e → lookupC cache k = some e ∨
         (e.timestamp = now ∧
          ∃ p ∈ sessions.filter (fun p => (ScoreCache.get ttl cache now p.1).isNone),
            p.1 = k ∧
            score_session compile scorer now p.1 p.2 = PRes.res (Except.ok e.score))) ∧
      (∀ p ∈ sessions.filter (fun p => (ScoreCache.get ttl cache now p.1).isNone),
         (∃ s0, score_session compile scorer now p.1 p.2 = PRes.res (Except.ok s0)) →
         (lookupC cache2 p.1).isSome = true) := by
  intro compile scorer ttl now sessions cache rs cache2 n h
  unfold score_sessions_batch at h
  rw [batchPhase1_spec ttl cache now sessions] at h
  simp only [] at h
  split at h
  next => exact PRes.noConfusion h
  next results cache3 m hrec =>
    simp only [PRes.res.injEq, Prod.mk.injEq] at h
    obtain ⟨rfl, rfl, rfl⟩ := h
    obtain ⟨hn, hlen, hfa, hcache, hstored⟩ := runMisses_spec compile scorer now _ _ _ _ _ hrec
    refine ⟨?_, by rw [hn], ⟨results, rfl, hfa⟩, hcache, hstored⟩
    rw [List.length_append, hlen]
    exact hits_misses_length ttl cache now sessions

/-- Cache for the batch witness, holding a fresh entry for `a1`. -/
def batchCache0 : CacheMap := ScoreCache.set [] "a1".toList junkScore 0

/-- Input pairs for the batch witness: `a1` is a cache hit, `b2` a miss. -/
def batchSessions : List (List Char × List Char) :=
  [("a1".toList, "x".toList), ("b2".toList, [])]

/-- The outcome of the batch witness run. -/
def batchOut : List (Except String SessionScore) × CacheMap × Nat :=
  presGetD (score_sessions_batch modelCompile defaultScorer 60 10 batchSessions
    batchCache0) ([], [], 0)

/-- C5 witness: the batch contract instantiated on a two-input run. -/
theorem c5_batch_results_witness :
    batchOut.1.length = batchSessions.length ∧
    batchOut.2.2 = (batchSessions.filter
      (fun p => (ScoreCache.get 60 batchCache0 10 p.1).isNone)).length ∧
    (∃ ms, batchOut.1 = batchSessions.filterMap
        (fun p => (ScoreCache.get 60 batchCache0 10 p.1).map Except.ok) ++ ms ∧
      List.Forall₂
        (fun r p => score_session modelCompile defaultScorer 10 p.1 p.2 = PRes.res r)
        ms (batchSessions.filter
          (fun p => (ScoreCache.get 60 batchCache0 10 p.1).isNone))) ∧
    (∀ k e, lookupC batchOut.2.1 k = some e → lookupC batchCache0 k = some e ∨
       (e.timestamp = 10 ∧
        ∃ p ∈ batchSessions.filter
            (fun p => (ScoreCache.get 60 batchCache0 10 p.1).isNone),
          p.1 = k ∧
          score_session modelCompile defaultScorer 10 p.1 p.2 =
            PRes.res (Except.ok e.score))) ∧
    (∀ p ∈ batchSessions.filter
        (fun p => (ScoreCache.get 60 batchCache0 10 p.1).isNone),
       (∃ s0, score_session modelCompile defaultScorer 10 p.1 p.2 =
         PRes.res (Except.ok s0)) →
       (lookupC batchOut.2.1 p.1).isSome = true) :=
  c5_batch_results modelCompile defaultScorer 60 10 batchSessions batchCache0
    batchOut.1 batchOut.2.1 batchOut.2.2 rfl

/-- C8 counterexample: a transcript of 150 two-byte characters produces a
300-byte excerpt of 150 characters — not "longer than 200 characters" — yet the
evidence is truncated (to the first 200 bytes, i.e. 100 characters, plus the
ellipsis): the truncation threshold is 200 bytes, not 200 characters. -/
theorem c8_counterexample :
    (resultScore (score_session modelCompile (with_config modelCompile c8Cfg) 0
      "s1".toList c8Tr)).map (fun s => s.rules.map RuleCheck.evidence) =
      some [some (List.replicate 100 'é' ++ "...".toList)] ∧
    c8Tr.length ≤ 200 ∧ utf8Len c8Tr > 200 := by
  exact ⟨by decide, by decide, by decide⟩

/-- C8 amended: for every passed rule — and only for passed rules — the
RuleCheck carries an evidence excerpt built from the first match span of the
rule's compiled pattern, extended to the enclosing line boundaries, and
truncated to its first 200 bytes plus an ellipsis when it exceeds 200 bytes
(`specEvidence`); rule ids are unique per the data model. -/
theorem c8_amended :
    ∀ (compile : String → Option Matcher) (cfg : TrackerConfig) (now : Nat)
      (sid tr : List Char) (s : SessionScore),
      (cfg.rules.map RuleDefinition.id).Nodup →
      score_session compile (with_config compile cfg) now sid tr =
        PRes.res (Except.ok s) →
      List.Forall₂ (fun (c : RuleCheck) (r : RuleDefinition) =>
        (c.passed = true → ∃ regex, compile r.pattern = some regex ∧
           specEvidence regex tr = PRes.res c.evidence ∧ c.evidence ≠ none) ∧
        (c.passed = false → c.evidence = none)) s.rules cfg.rules := by
  intro compile cfg now sid tr s hnd h
  have hspec := score_session_ok_spec compile (with_config compile cfg) now sid tr s h
  have hfa := hspec.2.2.2.2.2.2.2.2
  simp only [with_config] at hfa
  refine forall₂_imp_of_mem _ _ _ _ hfa ?_
  intro c r hr hcf
  obtain ⟨hid, hname, hdesc, hpassed, hconf, hev, hevn, hsugg⟩ := hcf
  refine ⟨?_, hevn⟩
  intro hp
  have hpr : passesRule (compile_rules compile cfg) tr r = true := by
    rw [← hpassed, hp]
  have hlook := lookupA_compile_rules compile cfg r hnd hr
  unfold passesRule at hpr
  cases hl : lookupA (compile_rules compile cfg) r.id with
  | none => rw [hl] at hpr; simp at hpr
  | some rx =>
    rw [hl] at hpr
    simp only [] at hpr
    rw [hl] at hlook
    refine ⟨rx, hlook.symm, ?_, ?_⟩
    · rw [← extract_evidence_eq_specEvidence compile tr r.pattern rx hlook.symm]
      exact hev hp
    · refine specEvidence_ne_none rx tr c.evidence hpr ?_
      rw [← extract_evidence_eq_specEvidence compile tr r.pattern rx hlook.symm]
      exact hev hp

/-- C8 witness: the evidence description instantiated on the truncation example. -/
theorem c8_amended_witness :
    List.Forall₂ (fun (c : RuleCheck) (r : RuleDefinition) =>
      (c.passed = true → ∃ regex, modelCompile r.pattern = some regex ∧
         specEvidence regex c8Tr = PRes.res c.evidence ∧ c.evidence ≠ none) ∧
      (c.passed = false → c.evidence = none)) c8Score.rules c8Cfg.rules :=
  c8_amended modelCompile c8Cfg 0 "s1".toList c8Tr c8Score (by decide) rfl

end DataDashboard

